import Mathlib

/-!
Verification of the fx3kit driver core (src/hardware/fx3kit/api.c).

The firmware installer and the device-lifecycle state machine are embedded
as executable Lean functions over byte lists (bytes are Nat), and the
control-transfer side effects are captured as explicit event traces.
-/

namespace Fx3kit

/-- A control transfer issued by the driver: either one of the two CPU-reset
toggles of fx3_reset (payload is the single byte 1 or 0, recorded as the Bool),
or one firmware chunk upload carrying the 16-bit value field, the 16-bit index
field and the chunk's payload bytes. -/
inductive Ev : Type where
  | reset : Bool → Ev
  | chunk : Nat → Nat → List Nat → Ev
deriving DecidableEq, Repr

/-- Payload bytes carried by an event. -/
def Ev.payload : Ev → List Nat
  | Ev.reset _ => []
  | Ev.chunk _ _ d => d

/-- Whether an event is a CPU-reset toggle. -/
def Ev.isReset : Ev → Bool
  | Ev.reset _ => true
  | Ev.chunk _ _ _ => false

/-- FW_CHUNKSIZE (api.c line 28): 4 * 1024. -/
def FW_CHUNKSIZE : Nat := 4 * 1024

/-- RL32: 32-bit little-endian read at index i of a byte buffer (every use in
the embedded code is guarded to be in bounds; out-of-range bytes read as 0). -/
def rl32 (fw : List Nat) (i : Nat) : Nat :=
  fw.getD i 0 + 256 * fw.getD (i + 1) 0 + 65536 * fw.getD (i + 2) 0 +
    16777216 * fw.getD (i + 3) 0

/-- The two failure modes of fx3_install_firmware's own checks (both return
SR_ERR in C; they are distinguished here exactly as the code distinguishes
them by its error messages: invalid signature vs truncated file). -/
inductive InstallErr : Type where
  | invalidSignature : InstallErr
  | truncated : InstallErr
deriving DecidableEq, Repr

instance : DecidableEq (Except InstallErr Unit) := fun a b =>
  match a, b with
  | Except.ok (), Except.ok () => isTrue rfl
  | Except.error x, Except.error y =>
    if h : x = y then isTrue (by rw [h]) else
      isFalse (by intro hc; cases hc; exact h rfl)
  | Except.ok (), Except.error _ => isFalse (fun hc => Except.noConfusion hc)
  | Except.error _, Except.ok () => isFalse (fun hc => Except.noConfusion hc)

/-- The inner do/while upload loop of fx3_install_firmware (api.c 102-117).
body is the byte suffix of the firmware buffer starting at the segment's
payload, n is sublength, so is suboffset.  Each pass sends one chunk of
min (n - so) FW_CHUNKSIZE bytes with value (addr+so) mod 2^16 and index
(addr+so) / 2^16, then repeats while suboffset < sublength.  fuel bounds the
number of passes; n - so + 1 passes always suffice. -/
def chunkLoop : Nat → List Nat → Nat → Nat → Nat → List Ev
  | 0, _, _, _, _ => []
  | fuel + 1, body, addr, n, so =>
    let c := min (n - so) FW_CHUNKSIZE
    let ev := Ev.chunk ((addr + so) % 65536) ((addr + so) / 65536) ((body.drop so).take c)
    if so + c < n then ev :: chunkLoop fuel body addr n (so + c) else [ev]

/-- The outer while loop of fx3_install_firmware (api.c 77-126), embedded over
the remaining byte suffix rest (the C code's firmware + offset; the C
comparisons offset < length, offset + 4 == length, length < offset + 8 become
comparisons of rest.length).  In extended (fx3) mode an iteration reads an
8-byte header: a 32-bit LE word count whose shift by 2 is a 32-bit unsigned
operation (hence the mod 2^32), then a 32-bit LE target address; a remaining
length of exactly 4 is the trailing checksum, skipped with success.  After the
loop the C code reports a truncated file when offset < length, which is why
the length-exceeds-remaining break succeeds when no byte remains after the
header.  In legacy mode the whole buffer is one segment at address 0.  The
trace lists the control transfers issued when the device accepts every
transfer.  fuel bounds iterations; rest.length + 1 always suffices. -/
def installLoop : Nat → List Nat → Bool → Except InstallErr Unit × List Ev
  | 0, _, _ => (Except.error InstallErr.truncated, [])
  | fuel + 1, rest, fx3 =>
    if rest.length = 0 then (Except.ok (), [])
    else if fx3 then
      if rest.length = 4 then (Except.ok (), [])
      else if rest.length < 8 then (Except.error InstallErr.truncated, [])
      else
        let sublength := rl32 rest 0 * 4 % 4294967296
        let addr := rl32 rest 4
        let body := rest.drop 8
        if body.length < sublength then
          (if body.length = 0 then Except.ok () else Except.error InstallErr.truncated, [])
        else
          let evs := chunkLoop (sublength + 1) body addr sublength 0
          let out := installLoop fuel (body.drop sublength) fx3
          (out.1, evs ++ out.2)
    else
      (Except.ok (), chunkLoop (rest.length + 1) rest 0 rest.length 0)

/-- fx3_install_firmware (api.c 47-131) on an already-loaded firmware byte
buffer.  In extended mode the 4-byte signature must be the bytes of C, Y,
anything, 0xB0 (67, 89, _, 176); otherwise the invalid-signature error is
returned before any transfer. -/
def installFw (fw : List Nat) (fx3 : Bool) : Except InstallErr Unit × List Ev :=
  if fx3 then
    if fw.length < 4 ∨ fw.getD 0 0 ≠ 67 ∨ fw.getD 1 0 ≠ 89 ∨ fw.getD 3 0 ≠ 176 then
      (Except.error InstallErr.invalidSignature, [])
    else installLoop (fw.length + 1) (fw.drop 4) true
  else installLoop (fw.length + 1) fw false

/-- fx3_upload_firmware (api.c 134-180), restricted to its control-transfer
behaviour: for legacy devices one reset-assert transfer before the install and
one reset-release transfer after a successful install; for fx3 devices no
reset toggle at all.  libusb_open, kernel-driver detach and
libusb_set_configuration are modelled as succeeding and are not vendor
control transfers issued by this driver. -/
def uploadFw (fw : List Nat) (fx3 : Bool) : Except InstallErr Unit × List Ev :=
  if fx3 then installFw fw true
  else
    let out := installFw fw false
    match out.1 with
    | Except.ok _ => (Except.ok (), Ev.reset true :: (out.2 ++ [Ev.reset false]))
    | Except.error e => (Except.error e, Ev.reset true :: out.2)

/-- The chunk transfers the installer issues for one parsed segment with
target address addr and payload data: the upload loop run on exactly that
segment's bytes. -/
def segTransfers (addr : Nat) (data : List Nat) : List Ev :=
  chunkLoop (data.length + 1) data addr data.length 0

/-- 32-bit little-endian encoding of a number. -/
def le32 (n : Nat) : List Nat :=
  [n % 256, n / 256 % 256, n / 65536 % 256, n / 16777216 % 256]

/-- One segment of an extended-format image: a target address and payload. -/
structure Segment : Type where
  addr : Nat
  data : List Nat
deriving DecidableEq, Repr

/-- Extended-format encoding of one segment (spec section 3): 32-bit LE word
count (payload length divided by 4), 32-bit LE target address, payload. -/
def encodeSeg (s : Segment) : List Nat := le32 (s.data.length / 4) ++ le32 s.addr ++ s.data

/-- Concatenated encoding of a list of segments. -/
def encodeSegs (ss : List Segment) : List Nat := (ss.map encodeSeg).flatten

/-- A full extended-format image: the 4-byte signature with reserved byte r,
the segments, and an optional trailing 4-byte checksum word ck. -/
def encodeImage (r : Nat) (ss : List Segment) (ck : List Nat) : List Nat :=
  67 :: 89 :: r :: 176 :: (encodeSegs ss ++ ck)

/-- Well-formedness of a segment for the extended format: the payload length
is a whole number of 32-bit words, and length and address fit in 32 bits. -/
def WFseg (s : Segment) : Prop :=
  s.data.length % 4 = 0 ∧ s.data.length < 4294967296 ∧ s.addr < 4294967296

instance (s : Segment) : Decidable (WFseg s) :=
  inferInstanceAs (Decidable (_ ∧ _ ∧ _))

lemma chunkLoop_take (addr : Nat) : ∀ (fuel : Nat) (body : List Nat) (n so : Nat),
    n ≤ body.length →
    chunkLoop fuel body addr n so = chunkLoop fuel (body.take n) addr n so := by
  intro fuel
  induction fuel with
  | zero => intro body n so h; rfl
  | succ fuel ih =>
    intro body n so h
    simp only [chunkLoop]
    have hslice : ((body.take n).drop so).take (min (n - so) FW_CHUNKSIZE) =
        (body.drop so).take (min (n - so) FW_CHUNKSIZE) := by
      rw [List.drop_take, List.take_take]
      congr 1
      simp only [FW_CHUNKSIZE]
      omega
    rw [hslice]
    by_cases hc : so + min (n - so) FW_CHUNKSIZE < n
    · rw [if_pos hc, if_pos hc, ih body n _ h]
    · rw [if_neg hc, if_neg hc]

lemma chunkLoop_payload (addr : Nat) : ∀ (fuel : Nat) (body : List Nat) (n so : Nat),
    so ≤ n → n - so < fuel →
    ((chunkLoop fuel body addr n so).map Ev.payload).flatten = (body.drop so).take (n - so) := by
  intro fuel
  induction fuel with
  | zero => intro body n so h1 h2; omega
  | succ fuel ih =>
    intro body n so h1 h2
    simp only [chunkLoop]
    by_cases hc : so + min (n - so) FW_CHUNKSIZE < n
    · have hcpos : 1 ≤ min (n - so) FW_CHUNKSIZE := by
        simp only [FW_CHUNKSIZE]; omega
      rw [if_pos hc]
      simp only [List.map_cons, List.flatten_cons, Ev.payload]
      rw [ih body n (so + min (n - so) FW_CHUNKSIZE) (by omega)
        (by simp only [FW_CHUNKSIZE] at *; omega)]
      have hsplit : n - so = min (n - so) FW_CHUNKSIZE + (n - (so + min (n - so) FW_CHUNKSIZE)) := by
        simp only [FW_CHUNKSIZE] at *; omega
      conv_rhs => rw [hsplit]
      rw [List.take_add, List.drop_drop]
    · rw [if_neg hc]
      simp only [List.map_cons, List.map_nil, List.flatten_cons, List.flatten_nil,
        List.append_nil, Ev.payload]
      congr 1
      simp only [FW_CHUNKSIZE] at *
      omega

lemma chunkLoop_mem (addr : Nat) : ∀ (fuel : Nat) (body : List Nat) (n so : Nat) (ev : Ev),
    ev ∈ chunkLoop fuel body addr n so → ∃ so2, so ≤ so2 ∧ (so2 = so ∨ so2 < n) ∧
      ev = Ev.chunk ((addr + so2) % 65536) ((addr + so2) / 65536)
        ((body.drop so2).take (min (n - so2) FW_CHUNKSIZE)) := by
  intro fuel
  induction fuel with
  | zero => intro body n so ev h; cases h
  | succ fuel ih =>
    intro body n so ev h
    simp only [chunkLoop] at h
    by_cases hc : so + min (n - so) FW_CHUNKSIZE < n
    · rw [if_pos hc] at h
      rcases List.mem_cons.mp h with h1 | h2
      · exact ⟨so, le_refl so, Or.inl rfl, h1⟩
      · obtain ⟨so2, hle, hor, hev⟩ := ih body n _ ev h2
        exact ⟨so2, by omega, Or.inr (by omega), hev⟩
    · rw [if_neg hc] at h
      rcases List.mem_singleton.mp h with rfl
      exact ⟨so, le_refl so, Or.inl rfl, rfl⟩

lemma chunkLoop_ne_nil (body : List Nat) (addr n so fuel : Nat) :
    chunkLoop (fuel + 1) body addr n so ≠ [] := by
  simp only [chunkLoop]
  by_cases hc : so + min (n - so) FW_CHUNKSIZE < n
  · simp [hc]
  · simp [hc]

lemma segTransfers_ne_nil (addr : Nat) (data : List Nat) : segTransfers addr data ≠ [] := by
  simp only [segTransfers]
  exact chunkLoop_ne_nil data addr data.length 0 data.length

lemma installLoop_zero_len (fuel : Nat) (rest : List Nat) (fx3 : Bool) (h0 : rest.length = 0) :
    installLoop (fuel + 1) rest fx3 = (Except.ok (), []) := by
  simp [installLoop, h0]

lemma installLoop_cksum (fuel : Nat) (rest : List Nat) (h4 : rest.length = 4) :
    installLoop (fuel + 1) rest true = (Except.ok (), []) := by
  simp [installLoop, h4]

lemma installLoop_short (fuel : Nat) (rest : List Nat) (h0 : rest.length ≠ 0)
    (h4 : rest.length ≠ 4) (h8 : rest.length < 8) :
    installLoop (fuel + 1) rest true = (Except.error InstallErr.truncated, []) := by
  simp [installLoop, h0, h4, h8]

lemma installLoop_over (fuel : Nat) (rest : List Nat) (h0 : rest.length ≠ 0)
    (h4 : rest.length ≠ 4) (h8 : ¬ rest.length < 8)
    (htr : rest.length - 8 < rl32 rest 0 * 4 % 4294967296) :
    installLoop (fuel + 1) rest true =
      (if rest.length - 8 = 0 then Except.ok () else Except.error InstallErr.truncated, []) := by
  simp [installLoop, h0, h4, h8, htr]

lemma installLoop_step (fuel : Nat) (rest : List Nat) (h0 : rest.length ≠ 0)
    (h4 : rest.length ≠ 4) (h8 : ¬ rest.length < 8)
    (htr : ¬ rest.length - 8 < rl32 rest 0 * 4 % 4294967296) :
    installLoop (fuel + 1) rest true =
      ((installLoop fuel ((rest.drop 8).drop (rl32 rest 0 * 4 % 4294967296)) true).1,
        chunkLoop (rl32 rest 0 * 4 % 4294967296 + 1) (rest.drop 8) (rl32 rest 4)
            (rl32 rest 0 * 4 % 4294967296) 0 ++
          (installLoop fuel ((rest.drop 8).drop (rl32 rest 0 * 4 % 4294967296)) true).2) := by
  simp [installLoop, h0, h4, h8, htr]

lemma installLoop_legacy (fuel : Nat) (rest : List Nat) (h0 : rest.length ≠ 0) :
    installLoop (fuel + 1) rest false =
      (Except.ok (), chunkLoop (rest.length + 1) rest 0 rest.length 0) := by
  simp [installLoop, h0]

lemma installLoop_segs : ∀ (fuel : Nat) (rest : List Nat) (fx3 : Bool),
    ∃ segs : List (Nat × List Nat),
      (installLoop fuel rest fx3).2 = (segs.map fun p => segTransfers p.1 p.2).flatten := by
  intro fuel
  induction fuel with
  | zero => intro rest fx3; exact ⟨[], rfl⟩
  | succ fuel ih =>
    intro rest fx3
    by_cases h0 : rest.length = 0
    · exact ⟨[], by rw [installLoop_zero_len fuel rest fx3 h0]; rfl⟩
    cases fx3 with
    | false =>
      refine ⟨[(0, rest)], ?_⟩
      rw [installLoop_legacy fuel rest h0]
      simp only [List.map_cons, List.map_nil, List.flatten_cons, List.flatten_nil,
        List.append_nil]
      rfl
    | true =>
      by_cases h4 : rest.length = 4
      · exact ⟨[], by rw [installLoop_cksum fuel rest h4]; rfl⟩
      by_cases h8 : rest.length < 8
      · exact ⟨[], by rw [installLoop_short fuel rest h0 h4 h8]; rfl⟩
      by_cases htr : rest.length - 8 < rl32 rest 0 * 4 % 4294967296
      · exact ⟨[], by rw [installLoop_over fuel rest h0 h4 h8 htr]; rfl⟩
      · obtain ⟨segs, hsegs⟩ :=
          ih ((rest.drop 8).drop (rl32 rest 0 * 4 % 4294967296)) true
        refine ⟨(rl32 rest 4, (rest.drop 8).take (rl32 rest 0 * 4 % 4294967296)) :: segs, ?_⟩
        rw [installLoop_step fuel rest h0 h4 h8 htr]
        simp only [List.map_cons, List.flatten_cons]
        rw [← hsegs]
        congr 1
        have hle : rl32 rest 0 * 4 % 4294967296 ≤ (rest.drop 8).length := by
          rw [List.length_drop]; omega
        rw [chunkLoop_take (rl32 rest 4) _ (rest.drop 8) _ 0 hle]
        have hlen : ((rest.drop 8).take (rl32 rest 0 * 4 % 4294967296)).length
            = rl32 rest 0 * 4 % 4294967296 := by
          rw [List.length_take]; omega
        simp only [segTransfers, hlen]

lemma installLoop_noReset (fuel : Nat) (rest : List Nat) (fx3 : Bool) (ev : Ev)
    (hm : ev ∈ (installLoop fuel rest fx3).2) : ev.isReset = false := by
  obtain ⟨segs, hs⟩ := installLoop_segs fuel rest fx3
  rw [hs] at hm
  obtain ⟨l, hl, hml⟩ := List.mem_flatten.mp hm
  obtain ⟨p, _, hp⟩ := List.mem_map.mp hl
  rw [← hp] at hml
  obtain ⟨so2, _, _, hev⟩ := chunkLoop_mem p.1 _ p.2 p.2.length 0 ev hml
  rw [hev]
  rfl

lemma installFw_noReset (fw : List Nat) (fx3 : Bool) (ev : Ev)
    (hm : ev ∈ (installFw fw fx3).2) : ev.isReset = false := by
  unfold installFw at hm
  cases fx3 with
  | false => exact installLoop_noReset _ _ _ ev hm
  | true =>
    by_cases hs : fw.length < 4 ∨ fw.getD 0 0 ≠ 67 ∨ fw.getD 1 0 ≠ 89 ∨ fw.getD 3 0 ≠ 176
    · rw [if_pos rfl, if_pos hs] at hm
      cases hm
    · rw [if_pos rfl, if_neg hs] at hm
      exact installLoop_noReset _ _ _ ev hm

lemma le32_append (n : Nat) (l : List Nat) :
    le32 n ++ l = n % 256 :: n / 256 % 256 :: n / 65536 % 256 :: n / 16777216 % 256 :: l := rfl

lemma rl32_cons4 (a b c d : Nat) (l : List Nat) :
    rl32 (a :: b :: c :: d :: l) 0 = a + 256 * b + 65536 * c + 16777216 * d := rfl

lemma rl32_skip4 (a b c d : Nat) (l : List Nat) : rl32 (a :: b :: c :: d :: l) 4 = rl32 l 0 := rfl

lemma rl32_le32 (n : Nat) (l : List Nat) : rl32 (le32 n ++ l) 0 = n % 4294967296 := by
  rw [le32_append, rl32_cons4]
  omega

lemma encodeSeg_length (s : Segment) : (encodeSeg s).length = 8 + s.data.length := by
  simp [encodeSeg, le32]
  omega

lemma encodeSegs_cons (s : Segment) (ss : List Segment) :
    encodeSegs (s :: ss) = encodeSeg s ++ encodeSegs ss := by
  simp [encodeSegs]

lemma encodeSegs_len_ge (ss : List Segment) : ss.length ≤ (encodeSegs ss).length := by
  induction ss with
  | nil => simp [encodeSegs]
  | cons s ss ih =>
    rw [encodeSegs_cons, List.length_append, encodeSeg_length, List.length_cons]
    omega

lemma installLoop_encode : ∀ (segs : List Segment) (fuel : Nat) (ck : List Nat),
    (∀ s ∈ segs, WFseg s) → (ck = [] ∨ ck.length = 4) → segs.length < fuel →
    installLoop fuel (encodeSegs segs ++ ck) true =
      (Except.ok (), (segs.map fun s => segTransfers s.addr s.data).flatten) := by
  intro segs
  induction segs with
  | nil =>
    intro fuel ck hwf hck hfuel
    obtain ⟨fuel, rfl⟩ : ∃ f, fuel = f + 1 := ⟨fuel - 1, by omega⟩
    rcases hck with rfl | hck4
    · rw [show encodeSegs [] ++ [] = [] from rfl,
        installLoop_zero_len fuel [] true rfl]
      rfl
    · rw [show encodeSegs [] ++ ck = ck from by simp [encodeSegs],
        installLoop_cksum _ _ hck4]
      rfl
  | cons s ss ih =>
    intro fuel ck hwf hck hfuel
    obtain ⟨fuel, rfl⟩ : ∃ f, fuel = f + 1 := ⟨fuel - 1, by omega⟩
    obtain ⟨hmod, hlt, haddr⟩ := hwf s (List.mem_cons_self s ss)
    have hrest : encodeSegs (s :: ss) ++ ck =
        le32 (s.data.length / 4) ++ (le32 s.addr ++ (s.data ++ (encodeSegs ss ++ ck))) := by
      rw [encodeSegs_cons, encodeSeg]
      simp [List.append_assoc]
    rw [hrest]
    have hlen : (le32 (s.data.length / 4) ++ (le32 s.addr ++ (s.data ++ (encodeSegs ss ++ ck)))).length
        = 8 + s.data.length + (encodeSegs ss ++ ck).length := by
      simp [le32]
      omega
    have h0 : (le32 (s.data.length / 4) ++ (le32 s.addr ++ (s.data ++ (encodeSegs ss ++ ck)))).length ≠ 0 := by
      omega
    have h4 : (le32 (s.data.length / 4) ++ (le32 s.addr ++ (s.data ++ (encodeSegs ss ++ ck)))).length ≠ 4 := by
      omega
    have h8 : ¬ (le32 (s.data.length / 4) ++ (le32 s.addr ++ (s.data ++ (encodeSegs ss ++ ck)))).length < 8 := by
      omega
    have hsub : rl32 (le32 (s.data.length / 4) ++ (le32 s.addr ++ (s.data ++ (encodeSegs ss ++ ck)))) 0
        * 4 % 4294967296 = s.data.length := by
      rw [rl32_le32]
      omega
    have hrl4 : rl32 (le32 (s.data.length / 4) ++ (le32 s.addr ++ (s.data ++ (encodeSegs ss ++ ck)))) 4
        = s.addr := by
      rw [le32_append, rl32_skip4, rl32_le32]
      omega
    have hdrop8 : (le32 (s.data.length / 4) ++ (le32 s.addr ++ (s.data ++ (encodeSegs ss ++ ck)))).drop 8
        = s.data ++ (encodeSegs ss ++ ck) := rfl
    have htr : ¬ (le32 (s.data.length / 4) ++ (le32 s.addr ++ (s.data ++ (encodeSegs ss ++ ck)))).length - 8
        < rl32 (le32 (s.data.length / 4) ++ (le32 s.addr ++ (s.data ++ (encodeSegs ss ++ ck)))) 0
          * 4 % 4294967296 := by
      rw [hsub, hlen]
      omega
    rw [installLoop_step fuel _ h0 h4 h8 htr, hsub, hrl4, hdrop8]
    have hdropd : (s.data ++ (encodeSegs ss ++ ck)).drop s.data.length = encodeSegs ss ++ ck :=
      List.drop_left s.data (encodeSegs ss ++ ck)
    rw [hdropd, ih fuel ck (fun t ht => hwf t (List.mem_cons_of_mem s ht)) hck (by
      simp only [List.length_cons] at hfuel
      omega)]
    have hchunk : chunkLoop (s.data.length + 1) (s.data ++ (encodeSegs ss ++ ck)) s.addr
        s.data.length 0 = segTransfers s.addr s.data := by
      rw [chunkLoop_take s.addr _ _ _ 0 (by simp only [List.length_append]; omega),
        List.take_left s.data (encodeSegs ss ++ ck)]
      rfl
    rw [hchunk]
    simp [List.flatten_cons]

lemma installFw_encode (r : Nat) (segs : List Segment) (ck : List Nat)
    (hwf : ∀ s ∈ segs, WFseg s) (hck : ck = [] ∨ ck.length = 4) :
    installFw (encodeImage r segs ck) true =
      (Except.ok (), (segs.map fun s => segTransfers s.addr s.data).flatten) := by
  unfold installFw
  rw [if_pos rfl]
  have hsig : ¬ ((encodeImage r segs ck).length < 4 ∨ (encodeImage r segs ck).getD 0 0 ≠ 67 ∨
      (encodeImage r segs ck).getD 1 0 ≠ 89 ∨ (encodeImage r segs ck).getD 3 0 ≠ 176) := by
    simp [encodeImage]
  rw [if_neg hsig, show (encodeImage r segs ck).drop 4 = encodeSegs segs ++ ck from rfl]
  apply installLoop_encode segs _ ck hwf hck
  have h1 := encodeSegs_len_ge segs
  simp only [encodeImage, List.length_cons, List.length_append]
  omega

/-- C1: for every well-formed extended-format image, install uploads exactly
the ordered per-segment chunk transfers of each encoded segment's payload at
its declared little-endian target address, the trailing 4-byte checksum (when
present) is skipped and never uploaded, and the parse terminates successfully
(exact exhaustion when ck = [], or with exactly the 4 checksum bytes left). -/
theorem claim_C1 (r : Nat) (segs : List Segment) (ck : List Nat)
    (hwf : ∀ s ∈ segs, WFseg s) (hck : ck = [] ∨ ck.length = 4) :
    installFw (encodeImage r segs ck) true =
      (Except.ok (), (segs.map fun s => segTransfers s.addr s.data).flatten) :=
  installFw_encode r segs ck hwf hck

theorem claim_C1_witness :
    (∀ s ∈ [Segment.mk 65538 [5, 6, 7, 8]], WFseg s) ∧
    installFw (encodeImage 3 [Segment.mk 65538 [5, 6, 7, 8]] [9, 9, 9, 9]) true =
      (Except.ok (), [Ev.chunk 2 1 [5, 6, 7, 8]]) := by
  refine ⟨by decide, ?_⟩
  rw [claim_C1 3 [Segment.mk 65538 [5, 6, 7, 8]] [9, 9, 9, 9] (by decide)
    (Or.inr (by decide))]
  rfl

/-- C2 divergence witness: a 12-byte extended image (signature, then a header
declaring 1 word = 4 payload bytes at address 16, then nothing): the declared
segment length exceeds the 0 remaining bytes, yet install returns success and
uploads nothing — the break leaves offset equal to length, so the post-loop
truncation check passes.  The claim says this must fail as truncated. -/
theorem claim_C2_eval :
    installFw [67, 89, 0, 176, 1, 0, 0, 0, 16, 0, 0, 0] true = (Except.ok (), []) ∧
    installFw [67, 89, 0, 176, 1, 0, 0, 0, 16, 0, 0, 0] true ≠
      (Except.error InstallErr.truncated, []) := by
  exact ⟨by decide, by decide⟩

/-- C4: any buffer offered in extended format whose first 4 bytes are not
exactly 67, 89, anything, 176 — including buffers shorter than 4 bytes — is
rejected with the invalid-signature error with an empty transfer trace, i.e.
before any control transfer is attempted. -/
theorem claim_C4 (fw : List Nat)
    (h : fw.length < 4 ∨ fw.getD 0 0 ≠ 67 ∨ fw.getD 1 0 ≠ 89 ∨ fw.getD 3 0 ≠ 176) :
    installFw fw true = (Except.error InstallErr.invalidSignature, []) := by
  unfold installFw
  rw [if_pos rfl, if_pos h]

theorem claim_C4_witness :
    (([1, 2] : List Nat).length < 4 ∨ ([1, 2] : List Nat).getD 0 0 ≠ 67 ∨
      ([1, 2] : List Nat).getD 1 0 ≠ 89 ∨ ([1, 2] : List Nat).getD 3 0 ≠ 176) ∧
    installFw [1, 2] true = (Except.error InstallErr.invalidSignature, []) :=
  ⟨by decide, claim_C4 [1, 2] (by decide)⟩

/-- C5: the chunk trace of every install is a concatenation of per-segment
chunkings; concatenating the chunks uploaded for a segment reproduces that
segment's payload exactly and in order; and every chunk carries at most
FW_CHUNKSIZE bytes, with (addr+offset) mod 2^16 in the value field and
(addr+offset) / 2^16 in the index field for its suboffset. -/
theorem claim_C5 :
    (∀ (fw : List Nat) (fx3 : Bool), ∃ segs : List (Nat × List Nat),
      (installFw fw fx3).2 = (segs.map fun p => segTransfers p.1 p.2).flatten) ∧
    (∀ (addr : Nat) (data : List Nat),
      ((segTransfers addr data).map Ev.payload).flatten = data) ∧
    (∀ (addr : Nat) (data : List Nat) (ev : Ev), ev ∈ segTransfers addr data →
      ∃ so, so ≤ data.length ∧
        ev = Ev.chunk ((addr + so) % 65536) ((addr + so) / 65536)
          ((data.drop so).take (min (data.length - so) FW_CHUNKSIZE)) ∧
        (Ev.payload ev).length ≤ FW_CHUNKSIZE) := by
  refine ⟨?_, ?_, ?_⟩
  · intro fw fx3
    cases fx3 with
    | false => exact installLoop_segs _ _ _
    | true =>
      by_cases hs : fw.length < 4 ∨ fw.getD 0 0 ≠ 67 ∨ fw.getD 1 0 ≠ 89 ∨ fw.getD 3 0 ≠ 176
      · refine ⟨[], ?_⟩
        unfold installFw
        rw [if_pos rfl, if_pos hs]
        rfl
      · obtain ⟨segs, h⟩ := installLoop_segs (fw.length + 1) (fw.drop 4) true
        refine ⟨segs, ?_⟩
        unfold installFw
        rw [if_pos rfl, if_neg hs]
        exact h
  · intro addr data
    have h := chunkLoop_payload addr (data.length + 1) data data.length 0 (Nat.zero_le _)
      (by omega)
    simp only [List.drop_zero, Nat.sub_zero, List.take_length] at h
    exact h
  · intro addr data ev hm
    obtain ⟨so2, hle0, hor, hev⟩ := chunkLoop_mem addr (data.length + 1) data data.length 0 ev hm
    refine ⟨so2, by omega, hev, ?_⟩
    rw [hev]
    simp only [Ev.payload, List.length_take, FW_CHUNKSIZE]
    omega

theorem claim_C5_witness :
    Ev.chunk 4464 1 [1, 2, 3] ∈ segTransfers 70000 [1, 2, 3] ∧
    (∃ so, so ≤ ([1, 2, 3] : List Nat).length ∧
      Ev.chunk 4464 1 [1, 2, 3] = Ev.chunk ((70000 + so) % 65536) ((70000 + so) / 65536)
        ((([1, 2, 3] : List Nat).drop so).take
          (min (([1, 2, 3] : List Nat).length - so) FW_CHUNKSIZE)) ∧
      (Ev.payload (Ev.chunk 4464 1 [1, 2, 3])).length ≤ FW_CHUNKSIZE) :=
  ⟨by decide, claim_C5.2.2 70000 [1, 2, 3] (Ev.chunk 4464 1 [1, 2, 3]) (by decide)⟩

/-- C10: an extended image containing a segment whose declared word count is
zero still gets exactly one zero-length control transfer for that segment —
the do/while chunk loop always runs at least once per segment — rather than
no transfer at all. -/
theorem claim_C10 (r addr : Nat) (pre post : List Segment) (ck : List Nat)
    (hwf : ∀ s ∈ pre ++ post, WFseg s) (haddr : addr < 4294967296)
    (hck : ck = [] ∨ ck.length = 4) :
    installFw (encodeImage r (pre ++ Segment.mk addr [] :: post) ck) true =
      (Except.ok (),
        (pre.map fun s => segTransfers s.addr s.data).flatten ++
          (Ev.chunk (addr % 65536) (addr / 65536) [] ::
            (post.map fun s => segTransfers s.addr s.data).flatten)) ∧
    (∀ (a : Nat) (d : List Nat), segTransfers a d ≠ []) := by
  constructor
  · have hwf2 : ∀ s ∈ pre ++ Segment.mk addr [] :: post, WFseg s := by
      intro s hs
      rcases List.mem_append.mp hs with h | h
      · exact hwf s (List.mem_append.mpr (Or.inl h))
      · rcases List.mem_cons.mp h with rfl | h2
        · exact ⟨rfl, by simp, haddr⟩
        · exact hwf s (List.mem_append.mpr (Or.inr h2))
    rw [installFw_encode r _ ck hwf2 hck]
    rw [List.map_append, List.flatten_append, List.map_cons, List.flatten_cons,
      show segTransfers addr [] = [Ev.chunk (addr % 65536) (addr / 65536) []] from rfl]
    rfl
  · intro a d
    exact segTransfers_ne_nil a d

theorem claim_C10_witness :
    (∀ s ∈ ([] : List Segment) ++ ([] : List Segment), WFseg s) ∧ (7 : Nat) < 4294967296 ∧
    (installFw (encodeImage 0 (([] : List Segment) ++ Segment.mk 7 [] :: []) []) true =
      (Except.ok (),
        (([] : List Segment).map fun s => segTransfers s.addr s.data).flatten ++
          (Ev.chunk (7 % 65536) (7 / 65536) [] ::
            (([] : List Segment).map fun s => segTransfers s.addr s.data).flatten)) ∧
      (∀ (a : Nat) (d : List Nat), segTransfers a d ≠ [])) :=
  ⟨by decide, by decide, claim_C10 0 7 [] [] [] (by decide) (by decide) (Or.inl rfl)⟩

lemma uploadFw_legacy (fw : List Nat) :
    uploadFw fw false =
      (match (installFw fw false).1 with
        | Except.ok _ =>
          (Except.ok (), Ev.reset true :: ((installFw fw false).2 ++ [Ev.reset false]))
        | Except.error e => (Except.error e, Ev.reset true :: (installFw fw false).2)) := rfl

/-- C9: on a successful legacy upload the control transfers are exactly one
reset-assert, then the install chunks, then one reset-release; an extended
(fx3) upload never issues a reset toggle at all. -/
theorem claim_C9 :
    (∀ fw : List Nat, (uploadFw fw false).1 = Except.ok () →
      ∃ mid, (uploadFw fw false).2 = Ev.reset true :: (mid ++ [Ev.reset false]) ∧
        ∀ ev ∈ mid, ev.isReset = false) ∧
    (∀ (fw : List Nat) (ev : Ev), ev ∈ (uploadFw fw true).2 → ev.isReset = false) := by
  constructor
  · intro fw hok
    rcases hres : (installFw fw false).1 with e | u
    · rw [uploadFw_legacy, hres] at hok
      exact Except.noConfusion hok
    · refine ⟨(installFw fw false).2, ?_, fun ev hm => installFw_noReset fw false ev hm⟩
      rw [uploadFw_legacy, hres]
  · intro fw ev hm
    unfold uploadFw at hm
    rw [if_pos rfl] at hm
    exact installFw_noReset fw true ev hm

theorem claim_C9_witness :
    (uploadFw [9] false).1 = Except.ok () ∧
    (∃ mid, (uploadFw [9] false).2 = Ev.reset true :: (mid ++ [Ev.reset false]) ∧
      ∀ ev ∈ mid, ev.isReset = false) :=
  ⟨by decide, claim_C9.1 [9] (by decide)⟩

example : installFw [67, 89, 0, 176, 2, 0, 0, 0, 7, 0, 1, 0, 1, 2, 3, 4, 5, 6, 7, 8] true
    = (Except.ok (), [Ev.chunk 7 1 [1, 2, 3, 4, 5, 6, 7, 8]]) := by decide

example : installFw [67, 89, 0, 176, 2, 0, 0, 0, 7, 0, 1, 0, 1, 2, 3, 4, 5, 6, 7] true
    = (Except.error InstallErr.truncated, []) := by decide

example : installFw [67, 89, 0, 176, 1, 0, 0, 0, 16, 0, 0, 0] true
    = (Except.ok (), []) := by decide

example : installFw (encodeImage 0 [Segment.mk 65538 [5, 6, 7, 8]] [9, 9, 9, 9]) true
    = (Except.ok (), [Ev.chunk 2 1 [5, 6, 7, 8]]) := by decide

example : uploadFw [1, 2, 3] false
    = (Except.ok (), [Ev.reset true, Ev.chunk 0 0 [1, 2, 3], Ev.reset false]) := by decide

inductive ScanEv : Type where
  | openDev : ScanEv
  | closeDev : ScanEv
deriving DecidableEq, Repr

/-- Outcome of reading one string descriptor in scan: the descriptor index is
0 (the string is set to empty without any read), the read succeeded, or the
read failed. -/
inductive StrRes : Type where
  | absent : StrRes
  | got : StrRes
  | failed : StrRes
deriving DecidableEq, Repr

/-- Outcomes of the external calls made for one device inside scan's loop
(api.c 298-374): whether the device passes the conn filter, whether its
vendor/product ids pass the fast pre-check, whether the transient open succeeds,
the three string-descriptor reads, whether usb_get_port_path succeeds and
whether a profile matches. -/
structure DevProbe : Type where
  connMatch : Bool
  vidpidOk : Bool
  openOk : Bool
  manuf : StrRes
  prod : StrRes
  serial : StrRes
  portOk : Bool
  profMatch : Bool
deriving DecidableEq, Repr

/-- The transient open/close events of one iteration of scan's device loop
(api.c 298-374), following the code's control flow literally: the conn filter
and vid/pid pre-check continues happen before the open; a failed open warns and
continues; a failed manufacturer, product or serial string read warns and
takes continue directly — libusb_close(hdl) at line 355 is only reached when
all three reads succeed; the port-path and profile-match continues happen
after that close. -/
def scanDevTrace (d : DevProbe) : List ScanEv :=
  if d.connMatch = false then []
  else if d.vidpidOk = false then []
  else if d.openOk = false then []
  else if d.manuf = StrRes.failed then [ScanEv.openDev]
  else if d.prod = StrRes.failed then [ScanEv.openDev]
  else if d.serial = StrRes.failed then [ScanEv.openDev]
  else [ScanEv.openDev, ScanEv.closeDev]

/-- C3 divergence witness: scan-loop iterations in which the transient open
succeeds and a manufacturer (or serial) string-descriptor read fails take the
early continue with the handle still open — no close event is ever issued for
them — while every fully-read iteration opens and closes.  The claim says even
those early-continue paths close the transiently opened handle. -/
theorem claim_C3_eval :
    scanDevTrace (DevProbe.mk true true true StrRes.failed StrRes.got StrRes.got true true) =
      [ScanEv.openDev] ∧
    ScanEv.closeDev ∉
      scanDevTrace (DevProbe.mk true true true StrRes.failed StrRes.got StrRes.got true true) ∧
    ScanEv.closeDev ∉
      scanDevTrace (DevProbe.mk true true true StrRes.got StrRes.got StrRes.failed true true) ∧
    scanDevTrace (DevProbe.mk true true true StrRes.got StrRes.got StrRes.got false true) =
      [ScanEv.openDev, ScanEv.closeDev] := by
  exact ⟨by decide, by decide, by decide, by decide⟩

/-- Result of dev_open: opened, the renumeration timeout, or the immediately
fatal failure of the single no-renumeration open attempt. -/
inductive OpenOut : Type where
  | opened : OpenOut
  | renumTimeout : OpenOut
  | openFailed : OpenOut
deriving DecidableEq, Repr

/-- Sleep and open-attempt events of dev_open. -/
inductive OpenEv : Type where
  | sleepMs : Nat → OpenEv
  | attempt : OpenEv
deriving DecidableEq, Repr

/-- The timediff_ms value the renumeration loop sees before attempt j: the C
code initialises it to 0 before the loop and recomputes it from the monotonic
clock after each 100 ms poll sleep, so it is 0 for j = 0 and
start + 100*j - fwUpd for later attempts (start being the clock right after
the 300 ms grace sleep, attempts themselves taking no time). -/
def timediffAt (fwUpd start j : Nat) : Nat :=
  if j = 0 then 0 else start + 100 * j - fwUpd

/-- The renumeration polling loop of dev_open (api.c 491-500).  att j is the
outcome of the j-th fx3kit_dev_open attempt and bound is MAX_RENUM_DELAY_MS.
While timediff_ms < bound: attempt the open, break on success, otherwise
sleep 100 ms and recompute timediff_ms.  Returns whether an attempt succeeded
together with the attempt/sleep event trace. -/
def renumLoop (bound fwUpd start : Nat) (att : Nat → Bool) (j : Nat) : Bool × List OpenEv :=
  if hlt : timediffAt fwUpd start j < bound then
    if att j then (true, [OpenEv.attempt])
    else
      let out := renumLoop bound fwUpd start att (j + 1)
      (out.1, OpenEv.attempt :: OpenEv.sleepMs 100 :: out.2)
  else (false, [])
termination_by fwUpd + bound + 100 - (start + 100 * j) + (if j = 0 then 1 else 0)
decreasing_by
  by_cases hj : j = 0 <;> simp [timediffAt, hj] at hlt ⊢ <;> omega

/-- dev_open (api.c 470-514) up to interface claiming: when fw_updated is
positive it sleeps the fixed 300 ms grace period and runs the renumeration
poll against MAX_RENUM_DELAY_MS (bound); the poll failing is the
renumeration timeout (the code logs that the device failed to renumerate).
When fw_updated is zero it makes exactly one open attempt with no sleep and a
failure is immediately fatal.  entry is the monotonic time at entry and fwUpd
the fw_updated timestamp. -/
def devOpen (fwUpd entry bound : Nat) (att : Nat → Bool) : OpenOut × List OpenEv :=
  if 0 < fwUpd then
    let out := renumLoop bound fwUpd (entry + 300) att 0
    (if out.1 then OpenOut.opened else OpenOut.renumTimeout, OpenEv.sleepMs 300 :: out.2)
  else
    (if att 0 then OpenOut.opened else OpenOut.openFailed, [OpenEv.attempt])

lemma renumLoop_shape (bound fwUpd start : Nat) (att : Nat → Bool) : ∀ j : Nat,
    ∃ n : Nat,
      (renumLoop bound fwUpd start att j).2 =
        (List.replicate n (OpenEv.attempt :: [OpenEv.sleepMs 100])).flatten ++
          (if (renumLoop bound fwUpd start att j).1 then [OpenEv.attempt] else []) ∧
      ((renumLoop bound fwUpd start att j).1 = false →
        bound ≤ timediffAt fwUpd start (j + n)) ∧
      (1 ≤ n → timediffAt fwUpd start (j + n - 1) < bound) := by
  intro j
  induction j using renumLoop.induct bound fwUpd start att with
  | case1 j hlt hatt =>
    have h1 : renumLoop bound fwUpd start att j = (true, [OpenEv.attempt]) := by
      rw [renumLoop.eq_def, dif_pos hlt, if_pos hatt]
    refine ⟨0, ?_, ?_, ?_⟩
    · rw [h1]
      simp
    · rw [h1]
      intro hc
      exact Bool.noConfusion hc
    · intro hc
      exact absurd hc (by omega)
  | case2 j hlt hatt ih =>
    have h1 : renumLoop bound fwUpd start att j =
        ((renumLoop bound fwUpd start att (j + 1)).1,
          OpenEv.attempt :: OpenEv.sleepMs 100 :: (renumLoop bound fwUpd start att (j + 1)).2) := by
      rw [renumLoop.eq_def, dif_pos hlt, if_neg hatt]
    obtain ⟨n, ha, hb, hc⟩ := ih
    refine ⟨n + 1, ?_, ?_, ?_⟩
    · rw [h1]
      simp only [List.replicate_succ, List.flatten_cons, ha, List.cons_append, List.nil_append]
    · rw [h1]
      intro hres
      have h2 := hb hres
      rw [show j + (n + 1) = j + 1 + n from by omega]
      exact h2
    · intro _
      rcases Nat.eq_zero_or_pos n with rfl | hn
      · rw [show j + (0 + 1) - 1 = j from by omega]
        exact hlt
      · have h3 := hc hn
        rw [show j + (n + 1) - 1 = j + 1 + n - 1 from by omega]
        exact h3
  | case3 j hlt =>
    have h1 : renumLoop bound fwUpd start att j = (false, []) := by
      rw [renumLoop.eq_def, dif_neg hlt]
    refine ⟨0, ?_, ?_, ?_⟩
    · rw [h1]
      simp
    · rw [h1]
      intro _
      rw [Nat.add_zero]
      exact Nat.le_of_not_lt hlt
    · intro hc
      exact absurd hc (by omega)

/-- C6: for a device with a positive firmware-updated timestamp, dev_open
sleeps the fixed 300 ms grace before the first open attempt, separates failed
attempts by 100 ms sleeps, fails with the renumeration timeout only once the
elapsed time measured from the firmware-updated timestamp has reached the
bound, and its total sleeping — the whole polling phase under instantaneous
attempts — is at most 300 + ceil(bound/100)*100 ms. -/
theorem claim_C6 (fwUpd entry bound : Nat) (att : Nat → Bool)
    (hfw : 0 < fwUpd) (hle : fwUpd ≤ entry) (hb : 0 < bound) :
    ∃ n : Nat,
      (devOpen fwUpd entry bound att).2 =
        OpenEv.sleepMs 300 ::
          ((List.replicate n (OpenEv.attempt :: [OpenEv.sleepMs 100])).flatten ++
            (if (devOpen fwUpd entry bound att).1 = OpenOut.opened then [OpenEv.attempt]
              else [])) ∧
      ((devOpen fwUpd entry bound att).1 = OpenOut.renumTimeout →
        fwUpd + bound ≤ entry + 300 + 100 * n) ∧
      300 + 100 * n ≤ 300 + (bound + 99) / 100 * 100 := by
  have hdev : devOpen fwUpd entry bound att =
      (if (renumLoop bound fwUpd (entry + 300) att 0).1 then OpenOut.opened
        else OpenOut.renumTimeout,
        OpenEv.sleepMs 300 :: (renumLoop bound fwUpd (entry + 300) att 0).2) := by
    simp only [devOpen]
    rw [if_pos hfw]
  obtain ⟨n, ha, hb2, hc⟩ := renumLoop_shape bound fwUpd (entry + 300) att 0
  refine ⟨n, ?_, ?_, ?_⟩
  · rw [hdev]
    cases hout : (renumLoop bound fwUpd (entry + 300) att 0).1 with
    | false =>
      rw [hout] at ha
      simp only [if_false, Bool.false_eq_true] at ha
      simp [ha]
    | true =>
      rw [hout] at ha
      simp only [if_true] at ha
      simp [ha]
  · intro ht
    rw [hdev] at ht
    have hout : (renumLoop bound fwUpd (entry + 300) att 0).1 = false := by
      cases hout : (renumLoop bound fwUpd (entry + 300) att 0).1 with
      | false => rfl
      | true =>
        rw [hout] at ht
        simp only [if_true] at ht
        exact absurd ht (by simp)
    have h2 := hb2 hout
    simp only [timediffAt, Nat.zero_add] at h2
    by_cases hn : n = 0
    · rw [hn] at h2
      simp at h2
      omega
    · rw [if_neg hn] at h2
      omega
  · by_cases hn : n ≤ 1
    · have : 1 ≤ (bound + 99) / 100 := by omega
      omega
    · have h3 := hc (by omega)
      simp only [timediffAt, Nat.zero_add] at h3
      rw [if_neg (by omega)] at h3
      omega

theorem claim_C6_witness :
    (0 : Nat) < 1 ∧ (1 : Nat) ≤ 1 ∧ (0 : Nat) < 250 ∧
    (∃ n : Nat,
      (devOpen 1 1 250 (fun _ => false)).2 =
        OpenEv.sleepMs 300 ::
          ((List.replicate n (OpenEv.attempt :: [OpenEv.sleepMs 100])).flatten ++
            (if (devOpen 1 1 250 (fun _ => false)).1 = OpenOut.opened then [OpenEv.attempt]
              else [])) ∧
      ((devOpen 1 1 250 (fun _ => false)).1 = OpenOut.renumTimeout →
        1 + 250 ≤ 1 + 300 + 100 * n) ∧
      300 + 100 * n ≤ 300 + (250 + 99) / 100 * 100) :=
  ⟨by decide, by decide, by decide,
    claim_C6 1 1 250 (fun _ => false) (by decide) (by decide) (by decide)⟩

/-- C8: for a device whose firmware-updated timestamp is zero, dev_open makes
exactly one open attempt with no sleeps, and a failure of that single attempt
is immediately the fatal open-failure result. -/
theorem claim_C8 (entry bound : Nat) (att : Nat → Bool) :
    devOpen 0 entry bound att =
      ((if att 0 then OpenOut.opened else OpenOut.openFailed), [OpenEv.attempt]) := by
  simp [devOpen]

/-- The static samplerates table (api.c 222-241): SR_KHZ(200) up to
SR_MHZ(192), 17 entries; the last NUM_FX3_RATES entries are the fx3-only
rates. -/
def samplerates : List Nat :=
  [200000, 250000, 500000, 1000000, 2000000, 3000000, 4000000, 6000000,
    8000000, 12000000, 16000000, 24000000, 32000000, 48000000, 64000000,
    96000000, 192000000]

/-- NUM_FX3_RATES (api.c 240). -/
def NUM_FX3_RATES : Nat := 5

/-- devc->num_samplerates as set in scan (api.c 419-422): the whole static
table for a profile with DEV_CAPS_FX3, NUM_FX3_RATES fewer entries
otherwise. -/
def scanNumRates (fx3cap : Bool) : Nat :=
  if fx3cap then samplerates.length else samplerates.length - NUM_FX3_RATES

/-- The mutable per-device state config_set touches for the sample rate:
devc->cur_samplerate and devc->num_samplerates (devc->samplerates always
points at the static table). -/
structure DevCtx : Type where
  cur_samplerate : Nat
  num_samplerates : Nat
deriving DecidableEq, Repr

/-- Modelled from the spec: std_u64_idx is the libsigrok std helper used at
api.c 629 and is not part of src/; per the spec, sample-rate set requires the
value to be an exact member of the device's applicable list, so this returns
the index of the first exact match of value among the first n entries of lst,
and none otherwise (the C helper returns a negative index). -/
def std_u64_idx (value : Nat) : List Nat → Nat → Option Nat
  | [], _ => none
  | _ :: _, 0 => none
  | x :: xs, n + 1 =>
    if x = value then some 0 else (std_u64_idx value xs n).map (fun i => i + 1)

/-- config_set for SR_CONF_SAMPLERATE (api.c 627-631): look the value up in
the first num_samplerates entries of the static table; on a miss return
SR_ERR_ARG (false) leaving devc untouched, on a hit store the matched table
entry into cur_samplerate. -/
def config_set_rate (devc : DevCtx) (value : Nat) : DevCtx × Bool :=
  match std_u64_idx value samplerates devc.num_samplerates with
  | none => (devc, false)
  | some idx => (DevCtx.mk (samplerates.getD idx 0) devc.num_samplerates, true)

lemma u64_idx_getD : ∀ (lst : List Nat) (n i value : Nat),
    std_u64_idx value lst n = some i → lst.getD i 0 = value := by
  intro lst
  induction lst with
  | nil => intro n i value h; cases h
  | cons x xs ih =>
    intro n i value h
    cases n with
    | zero => cases h
    | succ n =>
      simp only [std_u64_idx] at h
      by_cases hx : x = value
      · rw [if_pos hx] at h
        injection h with h2
        rw [← h2]
        exact hx
      · rw [if_neg hx] at h
        rcases Option.map_eq_some'.mp h with ⟨k, hk, rfl⟩
        exact ih n k value hk

lemma u64_idx_mem : ∀ (lst : List Nat) (n value : Nat),
    value ∈ lst.take n → ∃ i, std_u64_idx value lst n = some i := by
  intro lst
  induction lst with
  | nil => intro n value h; simp at h
  | cons x xs ih =>
    intro n value h
    cases n with
    | zero => simp at h
    | succ n =>
      by_cases hx : x = value
      · exact ⟨0, by simp [std_u64_idx, hx]⟩
      · rw [List.take_succ_cons, List.mem_cons] at h
        rcases h with rfl | h2
        · exact absurd rfl hx
        · obtain ⟨i, hi⟩ := ih n value h2
          exact ⟨i + 1, by simp [std_u64_idx, hx, hi]⟩

lemma u64_idx_not_mem : ∀ (lst : List Nat) (n value : Nat),
    value ∉ lst.take n → std_u64_idx value lst n = none := by
  intro lst
  induction lst with
  | nil => intro n value _; cases n <;> rfl
  | cons x xs ih =>
    intro n value h
    cases n with
    | zero => rfl
    | succ n =>
      rw [List.take_succ_cons, List.mem_cons] at h
      push_neg at h
      simp only [std_u64_idx]
      rw [if_neg (fun hx : x = value => h.1 hx.symm), ih n value h.2]
      rfl

/-- C7: sample-rate set succeeds exactly when the value is a member of the
device's applicable slice of the static table — all 17 entries with the
extended (fx3) capability, only the first 12 otherwise — storing the value;
any other value fails with the invalid-argument error leaving the current
sample rate unchanged; in particular 192 MHz is rejected for a profile
without the extended capability bit. -/
theorem claim_C7 (fx3cap : Bool) (cur value : Nat) :
    (scanNumRates true = 17 ∧ scanNumRates false = 12) ∧
    (value ∈ samplerates.take (scanNumRates fx3cap) →
      config_set_rate (DevCtx.mk cur (scanNumRates fx3cap)) value =
        (DevCtx.mk value (scanNumRates fx3cap), true)) ∧
    (value ∉ samplerates.take (scanNumRates fx3cap) →
      config_set_rate (DevCtx.mk cur (scanNumRates fx3cap)) value =
        (DevCtx.mk cur (scanNumRates fx3cap), false)) ∧
    config_set_rate (DevCtx.mk cur (scanNumRates false)) 192000000 =
      (DevCtx.mk cur (scanNumRates false), false) := by
  refine ⟨⟨by decide, by decide⟩, ?_, ?_, ?_⟩
  · intro hmem
    obtain ⟨i, hi⟩ := u64_idx_mem samplerates (scanNumRates fx3cap) value hmem
    have hv := u64_idx_getD samplerates (scanNumRates fx3cap) i value hi
    simp only [config_set_rate, hi, hv]
  · intro hnot
    have hn := u64_idx_not_mem samplerates (scanNumRates fx3cap) value hnot
    simp only [config_set_rate, hn]
  · have hn := u64_idx_not_mem samplerates (scanNumRates false) 192000000 (by decide)
    simp only [config_set_rate, hn]

theorem claim_C7_witness :
    ((192000000 : Nat) ∉ samplerates.take (scanNumRates false)) ∧
    config_set_rate (DevCtx.mk 0 (scanNumRates false)) 192000000 =
      (DevCtx.mk 0 (scanNumRates false), false) ∧
    ((24000000 : Nat) ∈ samplerates.take (scanNumRates false)) ∧
    config_set_rate (DevCtx.mk 0 (scanNumRates false)) 24000000 =
      (DevCtx.mk 24000000 (scanNumRates false), true) :=
  ⟨by decide, (claim_C7 false 0 192000000).2.2.1 (by decide), by decide,
    (claim_C7 false 0 24000000).2.1 (by decide)⟩

end Fx3kit
